import Mathlib

/-!
Verification of the gitsync reconciliation engine.

The program keeps a GitHub mirror in sync with the open changes of a Gerrit
instance.  We give a shallow embedding of the canonical (latest) revision of
the program: the `poll` pass, the identity join it builds (`changes` map),
the action dispatch switch, `syncBranch`'s git-command pipeline, and the
`syncComments` feedback relay.  Pure data and control flow are translated
directly from the Go source; network and git side effects appear either as
explicit inputs (the fetched change and pull-request lists, the status
list), as an environment function (the git subprocess), or as an emitted
operation trace.
-/

namespace Gitsync

/-- A Gerrit change as used by the program (`gerrit.ChangeInfo`): project,
change id, current revision hash, the revision→fetch-ref map, subject, and
the texts of the messages (comments) already posted on the change. -/
structure ChangeInfo where
  project : String
  changeID : String
  currentRevision : String
  revisions : List (String × String)
  subject : String
  messages : List String
  deriving DecidableEq, Repr

/-- `c.Revisions[c.CurrentRevision].Ref`: Go map indexing yields the zero
value (empty string) when the key is absent. -/
def ChangeInfo.refOf (c : ChangeInfo) : String :=
  (((c.revisions.find? (fun p => decide (p.1 = c.currentRevision)))).map (fun p => p.2)).getD ""

/-- A GitHub revision reference: branch ref, tip commit sha, and the owning
repository's full name (`Repo.FullName`). -/
structure GitHubRevision where
  ref : String
  sha : String
  repoName : String
  deriving DecidableEq, Repr

/-- A GitHub pull request as used by the program. -/
structure PullRequest where
  number : Int
  head : GitHubRevision
  base : GitHubRevision
  deriving DecidableEq, Repr

/-- The joined record: `type Change struct { *gerrit.ChangeInfo; *PullRequest }`.
Nil pointers become `none`. -/
structure Change where
  gerritChange : Option ChangeInfo
  pullRequest : Option PullRequest
  deriving DecidableEq, Repr

/-- `isGerritChange`: `strings.HasPrefix(id, "I")`. -/
def isGerritChange (id : String) : Bool :=
  "I".data.isPrefixOf id.data

/-- The `changes` map built by `poll`, modelled as a function from key to
optional record. -/
abbrev ChangeMap := String → Option Change

/-- `changes[ci.ChangeID] = &Change{ChangeInfo: ci}` — installs a fresh
record holding only the Gerrit side, overwriting any existing entry. -/
def insertGerrit (m : ChangeMap) (ci : ChangeInfo) : ChangeMap :=
  fun k => if k = ci.changeID then some { gerritChange := some ci, pullRequest := none } else m k

/-- The pull-request insertion step of `poll`: skip refs failing
`isGerritChange`; otherwise look the record up (creating `&Change{}` when
absent) and set its `PullRequest` field. -/
def insertPR (m : ChangeMap) (pr : PullRequest) : ChangeMap :=
  if isGerritChange pr.head.ref then
    fun k =>
      if k = pr.head.ref then
        some { (m pr.head.ref).getD { gerritChange := none, pullRequest := none }
                 with pullRequest := some pr }
      else m k
  else m

/-- The join built by one `poll` pass: all Gerrit changes inserted first,
then all pull requests (across all repositories, flattened in order). -/
def buildChanges (cis : List ChangeInfo) (prs : List PullRequest) : ChangeMap :=
  prs.foldl insertPR (cis.foldl insertGerrit (fun _ => none))

/-- The Gerrit change that ends up at key `k`: the last element of `cis`
whose change id is `k` (later map stores overwrite earlier ones). -/
def lastCI (cis : List ChangeInfo) (k : String) : Option ChangeInfo :=
  cis.reverse.find? (fun ci => decide (ci.changeID = k))

/-- The pull request that ends up at key `k`: the last element of `prs`
passing the sentinel-prefix test whose head ref is `k`. -/
def lastPR (prs : List PullRequest) (k : String) : Option PullRequest :=
  prs.reverse.find? (fun pr => isGerritChange pr.head.ref && decide (pr.head.ref = k))

theorem insertGerrit_self (m : ChangeMap) (ci : ChangeInfo) :
    insertGerrit m ci ci.changeID = some { gerritChange := some ci, pullRequest := none } := by
  simp [insertGerrit]

theorem insertGerrit_ne (m : ChangeMap) (ci : ChangeInfo) (k : String)
    (h : k ≠ ci.changeID) : insertGerrit m ci k = m k := by
  simp [insertGerrit, h]

theorem getD_gerritChange (o : Option Change) :
    (o.getD { gerritChange := none, pullRequest := none }).gerritChange =
      o.bind Change.gerritChange := by
  cases o <;> rfl

theorem insertPR_self (m : ChangeMap) (pr : PullRequest)
    (hg : isGerritChange pr.head.ref = true) :
    insertPR m pr pr.head.ref =
      some { gerritChange := (m pr.head.ref).bind Change.gerritChange,
             pullRequest := some pr } := by
  unfold insertPR
  rw [hg]
  simp only [if_true]
  rw [getD_gerritChange]

theorem insertPR_skip (m : ChangeMap) (pr : PullRequest) (k : String)
    (h : isGerritChange pr.head.ref = false ∨ k ≠ pr.head.ref) :
    insertPR m pr k = m k := by
  unfold insertPR
  rcases h with h | h
  · rw [h]; simp
  · by_cases hg : isGerritChange pr.head.ref
    · rw [hg]; simp only [if_true]; rw [if_neg h]
    · rw [Bool.not_eq_true] at hg; rw [hg]; simp

theorem foldl_insertGerrit (cis : List ChangeInfo) (m : ChangeMap) (k : String) :
    cis.foldl insertGerrit m k =
      match lastCI cis k with
      | some ci => some { gerritChange := some ci, pullRequest := none }
      | none => m k := by
  induction cis generalizing m with
  | nil => simp [lastCI]
  | cons ci rest ih =>
    show (rest.foldl insertGerrit (insertGerrit m ci)) k = _
    rw [ih]
    unfold lastCI
    rw [show (ci :: rest).reverse = rest.reverse ++ [ci] by simp, List.find?_append]
    cases hfind : rest.reverse.find? (fun x => decide (x.changeID = k)) with
    | some x => simp [Option.or]
    | none =>
      simp only [Option.or]
      by_cases hk : ci.changeID = k
      · have h1 : List.find? (fun x => decide (x.changeID = k)) [ci] = some ci :=
          List.find?_cons_of_pos _ (decide_eq_true hk)
        rw [h1, ← hk, insertGerrit_self]
      · have h1 : List.find? (fun x => decide (x.changeID = k)) [ci] = none := by
          rw [List.find?_cons_of_neg, List.find?_nil]
          simp [hk]
        rw [h1, insertGerrit_ne m ci k (fun h => hk h.symm)]

theorem foldl_insertPR (prs : List PullRequest) (m : ChangeMap) (k : String) :
    prs.foldl insertPR m k =
      match lastPR prs k with
      | some pr =>
          some { gerritChange := (m k).bind Change.gerritChange, pullRequest := some pr }
      | none => m k := by
  induction prs generalizing m with
  | nil => simp [lastPR]
  | cons pr rest ih =>
    show (rest.foldl insertPR (insertPR m pr)) k = _
    rw [ih]
    unfold lastPR
    rw [show (pr :: rest).reverse = rest.reverse ++ [pr] by simp, List.find?_append]
    cases hfind :
        rest.reverse.find? (fun x => isGerritChange x.head.ref && decide (x.head.ref = k)) with
    | some x =>
      simp only [Option.or]
      have hgerrit : (insertPR m pr k).bind Change.gerritChange =
          (m k).bind Change.gerritChange := by
        by_cases hg : isGerritChange pr.head.ref
        · by_cases hk : k = pr.head.ref
          · rw [hk, insertPR_self m pr hg]
            cases hmk : m pr.head.ref <;> simp [hmk]
          · rw [insertPR_skip m pr k (Or.inr hk)]
        · rw [insertPR_skip m pr k (Or.inl (Bool.not_eq_true _ ▸ hg))]
      rw [hgerrit]
    | none =>
      simp only [Option.or]
      by_cases hg : isGerritChange pr.head.ref
      · by_cases hk : pr.head.ref = k
        · have h1 : List.find?
              (fun x => isGerritChange x.head.ref && decide (x.head.ref = k)) [pr] = some pr := by
            apply List.find?_cons_of_pos
            rw [Bool.and_eq_true]
            exact ⟨hg, decide_eq_true hk⟩
          rw [h1, ← hk, insertPR_self m pr hg]
        · have h1 : List.find?
              (fun x => isGerritChange x.head.ref && decide (x.head.ref = k)) [pr] = none := by
            rw [List.find?_cons_of_neg, List.find?_nil]
            simp [hk]
          rw [h1, insertPR_skip m pr k (Or.inr (fun h => hk h.symm))]
      · have h1 : List.find?
            (fun x => isGerritChange x.head.ref && decide (x.head.ref = k)) [pr] = none := by
          rw [List.find?_cons_of_neg, List.find?_nil]
          simp [hg]
        rw [h1, insertPR_skip m pr k (Or.inl (Bool.not_eq_true _ ▸ hg))]

/-- Pointwise characterization of the join. -/
theorem buildChanges_eq (cis : List ChangeInfo) (prs : List PullRequest) (k : String) :
    buildChanges cis prs k =
      match lastPR prs k, lastCI cis k with
      | some pr, some ci => some { gerritChange := some ci, pullRequest := some pr }
      | some pr, none => some { gerritChange := none, pullRequest := some pr }
      | none, some ci => some { gerritChange := some ci, pullRequest := none }
      | none, none => none := by
  unfold buildChanges
  rw [foldl_insertPR, foldl_insertGerrit]
  cases hpr : lastPR prs k <;> cases hci : lastCI cis k <;>
    simp [foldl_insertGerrit, hci, Change.gerritChange]

theorem lastCI_isSome_iff (cis : List ChangeInfo) (k : String) :
    (lastCI cis k).isSome ↔ k ∈ cis.map (fun ci => ci.changeID) := by
  unfold lastCI
  rw [List.find?_isSome]
  constructor
  · rintro ⟨ci, hmem, hp⟩
    rw [List.mem_reverse] at hmem
    have : ci.changeID = k := of_decide_eq_true hp
    exact this ▸ List.mem_map_of_mem _ hmem
  · intro hk
    rcases List.mem_map.mp hk with ⟨ci, hmem, hid⟩
    exact ⟨ci, List.mem_reverse.mpr hmem, decide_eq_true hid⟩

theorem lastPR_isSome_iff (prs : List PullRequest) (k : String) :
    (lastPR prs k).isSome ↔
      k ∈ (prs.filter (fun pr => isGerritChange pr.head.ref)).map (fun pr => pr.head.ref) := by
  unfold lastPR
  rw [List.find?_isSome]
  constructor
  · rintro ⟨pr, hmem, hp⟩
    rw [List.mem_reverse] at hmem
    rw [Bool.and_eq_true] at hp
    obtain ⟨hg, hk⟩ := hp
    have : pr.head.ref = k := of_decide_eq_true hk
    refine this ▸ List.mem_map_of_mem _ ?_
    exact List.mem_filter.mpr ⟨hmem, hg⟩
  · intro hk
    rcases List.mem_map.mp hk with ⟨pr, hmem, hid⟩
    rcases List.mem_filter.mp hmem with ⟨hmem', hg⟩
    refine ⟨pr, List.mem_reverse.mpr hmem', ?_⟩
    rw [Bool.and_eq_true]
    exact ⟨hg, decide_eq_true hid⟩

/-- C1: the key set of the join is the union of the change ids and the
prefix-filtered pull-request head refs, and every joined record has at
least one side present. -/
theorem join_completeness (cis : List ChangeInfo) (prs : List PullRequest) (k : String) :
    ((buildChanges cis prs k).isSome ↔
      (k ∈ cis.map (fun ci => ci.changeID) ∨
       k ∈ (prs.filter (fun pr => isGerritChange pr.head.ref)).map (fun pr => pr.head.ref)))
    ∧ (∀ c : Change, buildChanges cis prs k = some c →
        (c.gerritChange.isSome ∨ c.pullRequest.isSome)) := by
  constructor
  · rw [buildChanges_eq, ← lastCI_isSome_iff, ← lastPR_isSome_iff]
    cases hpr : lastPR prs k <;> cases hci : lastCI cis k <;> simp [hpr, hci]
  · intro c hc
    rw [buildChanges_eq] at hc
    cases hpr : lastPR prs k <;> cases hci : lastCI cis k <;>
        rw [hpr, hci] at hc <;> simp only [Option.some.injEq] at hc
    all_goals first
      | simp at hc
      | (subst hc; simp)

/-- Witness for C1 at a concrete input. -/
theorem join_completeness_witness :
    (buildChanges
        [{ project := "upspin", changeID := "Iabc123", currentRevision := "deadbeef",
           revisions := [("deadbeef", "refs/changes/1/1")], subject := "s", messages := [] }]
        [] "Iabc123").isSome := by
  refine (join_completeness _ _ _).1.mpr (Or.inl ?_)
  decide

/-! ## Action classification and the dispatch switch -/

/-- The four reconciliation actions (derived, not stored). -/
inductive Action where
  | createAndOpen
  | noOp
  | updateAndRelay
  | closeAndDelete
  deriving DecidableEq, Repr

/-- The discrimination performed by the `switch` in `poll`, in source order.
A record with neither side present matches no case (and is unreachable by
construction), hence `none`. -/
def classify (c : Change) : Option Action :=
  match c.pullRequest, c.gerritChange with
  | none, some _ => some .createAndOpen
  | some pr, some ci =>
      if pr.head.sha = ci.currentRevision then some .noOp else some .updateAndRelay
  | some _, none => some .closeAndDelete
  | none, none => none

/-- The classification inputs the spec names: presence of each side and
(when both are present) revision-hash equality. -/
def classInputs (c : Change) : Bool × Bool × Bool :=
  (c.gerritChange.isSome, c.pullRequest.isSome,
    match c.pullRequest, c.gerritChange with
    | some pr, some ci => decide (pr.head.sha = ci.currentRevision)
    | _, _ => true)

/-- `strings.SplitN(s, "/", 2)` on the underlying character list: split at
the first `'/'` when one exists, else the singleton list. -/
def goSplitN2Slash (s : List Char) : List (List Char) :=
  if '/' ∈ s then [s.takeWhile (fun ch => ch ≠ '/'), (s.dropWhile (fun ch => ch ≠ '/')).tail]
  else [s]

/-- The side-effecting operations a `poll` pass can perform for one joined
record, in order.  `crash` models the runtime index-out-of-range panic of
`strings.SplitN(name, "/", 2)[1]` when `name` holds no `'/'`. -/
inductive Op where
  | syncBranch (project id : String)
  | createPR (project title id : String)
  | relay (repoName sha changeID : String)
  | closePR (repoName : String) (number : Int)
  | deleteBranch (repo id : String)
  | crash
  deriving DecidableEq, Repr

/-- `strings.SplitN(pr.Head.Repo.Name, "/", 2)[1]`: the second component of
the split, `none` when the indexing would be out of range. -/
def repoShortName (name : String) : Option String :=
  ((goSplitN2Slash name.data).get? 1).map String.mk

/-- The operation trace of the `switch` in `poll` for one joined record,
translated case by case from the source. -/
def dispatch (c : Change) : List Op :=
  match c.pullRequest, c.gerritChange with
  | none, some ci =>
      [.syncBranch ci.project ci.changeID, .createPR ci.project ci.subject ci.changeID]
  | some pr, some ci =>
      if pr.head.sha = ci.currentRevision then
        [.relay pr.head.repoName pr.head.sha ci.changeID]
      else
        [.syncBranch ci.project ci.changeID]
  | some pr, none =>
      .closePR pr.head.repoName pr.number ::
        (match repoShortName pr.head.repoName with
         | some repo => [.deleteBranch repo pr.head.ref]
         | none => [.crash])
  | none, none => []

def isRelayOp : Op → Bool
  | .relay _ _ _ => true
  | _ => false

/-- Branch-moving or pull-request-mutating operations. -/
def mutatingOp : Op → Bool
  | .syncBranch _ _ => true
  | .createPR _ _ _ => true
  | .closePR _ _ => true
  | .deleteBranch _ _ => true
  | .relay _ _ _ => false
  | .crash => false

/-- `classify` factored through its classification inputs (used to prove
determinism). -/
def classifyOfInputs : Bool × Bool × Bool → Option Action
  | (true, false, _) => some .createAndOpen
  | (true, true, b) => if b then some .noOp else some .updateAndRelay
  | (false, true, _) => some .closeAndDelete
  | (false, false, _) => none

theorem classify_eq_ofInputs (c : Change) :
    classify c = classifyOfInputs (classInputs c) := by
  rcases c with ⟨gc, pr⟩
  cases gc <;> cases pr <;> simp [classify, classInputs, classifyOfInputs]

/-- C2: classification is a total deterministic function of
(source present?, pull request present?, sha equality); the case table is
as the spec states it, and in the `NoOp` case the dispatched trace is
exactly the feedback relay. -/
theorem classify_total_deterministic :
    (∀ c : Change, c.gerritChange.isSome ∨ c.pullRequest.isSome → (classify c).isSome)
    ∧ (∀ ci : ChangeInfo,
        classify { gerritChange := some ci, pullRequest := none } = some .createAndOpen ∧
        dispatch { gerritChange := some ci, pullRequest := none } =
          [.syncBranch ci.project ci.changeID, .createPR ci.project ci.subject ci.changeID])
    ∧ (∀ (ci : ChangeInfo) (pr : PullRequest), pr.head.sha = ci.currentRevision →
        classify { gerritChange := some ci, pullRequest := some pr } = some .noOp ∧
        dispatch { gerritChange := some ci, pullRequest := some pr } =
          [.relay pr.head.repoName pr.head.sha ci.changeID])
    ∧ (∀ (ci : ChangeInfo) (pr : PullRequest), pr.head.sha ≠ ci.currentRevision →
        classify { gerritChange := some ci, pullRequest := some pr } = some .updateAndRelay ∧
        dispatch { gerritChange := some ci, pullRequest := some pr } =
          [.syncBranch ci.project ci.changeID])
    ∧ (∀ pr : PullRequest,
        classify { gerritChange := none, pullRequest := some pr } = some .closeAndDelete)
    ∧ (∀ c c' : Change, classInputs c = classInputs c' → classify c = classify c') := by
  refine ⟨?_, ?_, ?_, ?_, ?_, ?_⟩
  · intro c h
    rcases c with ⟨gc, pr⟩
    cases gc <;> cases pr <;> simp_all [classify]
    split <;> simp
  · intro ci; exact ⟨rfl, rfl⟩
  · intro ci pr h
    constructor <;> simp [classify, dispatch, h]
  · intro ci pr h
    constructor <;> simp [classify, dispatch, h]
  · intro pr; rfl
  · intro c c' h
    rw [classify_eq_ofInputs, classify_eq_ofInputs, h]

/-- A concrete open Gerrit change, used by several witnesses. -/
def ciEx : ChangeInfo :=
  { project := "upspin", changeID := "Iabc123", currentRevision := "deadbeef",
    revisions := [("deadbeef", "refs/changes/1/1")], subject := "s", messages := [] }

/-- A concrete mirror pull request in sync with `ciEx`. -/
def prEx : PullRequest :=
  { number := 7,
    head := { ref := "Iabc123", sha := "deadbeef", repoName := "adg/upspin" },
    base := { ref := "master", sha := "", repoName := "adg/upspin" } }

/-- Witness for C2: a concrete in-sync record classifies `NoOp` and its
trace is exactly the relay. -/
theorem classify_total_deterministic_witness :
    classify { gerritChange := some ciEx, pullRequest := some prEx } = some .noOp ∧
    dispatch { gerritChange := some ciEx, pullRequest := some prEx } =
      [.relay "adg/upspin" "deadbeef" "Iabc123"] :=
  classify_total_deterministic.2.2.1 ciEx prEx rfl

/-! ## The CloseAndDelete path, the sentinel prefix, and SplitN -/

theorem repoShortName_eq (name : String) :
    repoShortName name =
      if '/' ∈ name.data then
        some (String.mk ((name.data.dropWhile (fun ch => ch ≠ '/')).tail))
      else none := by
  unfold repoShortName goSplitN2Slash
  by_cases h : '/' ∈ name.data <;> simp [h]

/-- The trace of the CloseAndDelete branch, by cases on whether the head
repository full name holds a `'/'`. -/
theorem dispatch_orphan_cases (pr : PullRequest) :
    (('/' : Char) ∉ pr.head.repoName.data →
      dispatch { gerritChange := none, pullRequest := some pr } =
        [.closePR pr.head.repoName pr.number, .crash])
    ∧ (('/' : Char) ∈ pr.head.repoName.data →
      dispatch { gerritChange := none, pullRequest := some pr } =
        [.closePR pr.head.repoName pr.number,
         .deleteBranch
           (String.mk ((pr.head.repoName.data.dropWhile (fun ch => ch ≠ '/')).tail))
           pr.head.ref]) := by
  constructor <;> intro h <;>
    simp [dispatch, repoShortName_eq, h]

/-- C10: in the CloseAndDelete branch the local repository name is the
second component of `strings.SplitN(headRepoFullName, "/", 2)`; when the
full name holds no `'/'` that indexing is out of range, so the pass
crashes right after closing the pull request; when it holds a `'/'` the
branch runs to completion (close, then delete). -/
theorem closeAndDelete_split_safety (pr : PullRequest) :
    (('/' : Char) ∉ pr.head.repoName.data →
      dispatch { gerritChange := none, pullRequest := some pr } =
        [.closePR pr.head.repoName pr.number, .crash])
    ∧ (('/' : Char) ∈ pr.head.repoName.data →
      dispatch { gerritChange := none, pullRequest := some pr } =
        [.closePR pr.head.repoName pr.number,
         .deleteBranch
           (String.mk ((pr.head.repoName.data.dropWhile (fun ch => ch ≠ '/')).tail))
           pr.head.ref]) :=
  dispatch_orphan_cases pr

/-- A concrete pull request whose head repository full name holds no
`'/'`. -/
def prNoSlash : PullRequest :=
  { number := 9,
    head := { ref := "Iaaa", sha := "beef", repoName := "adgupspin" },
    base := { ref := "master", sha := "", repoName := "adgupspin" } }

/-- Witness for C10: a head repository full name without `'/'` crashes the
close path after the close call. -/
theorem closeAndDelete_split_safety_witness :
    dispatch { gerritChange := none, pullRequest := some prNoSlash } =
      [.closePR "adgupspin" 9, .crash] :=
  (closeAndDelete_split_safety prNoSlash).1 (by decide)

/-- C5 counterexample: for a concrete orphaned pull request the pass trace
is close-then-delete and holds no feedback-relay step at all, refuting the
claim that the relay runs before every close. -/
theorem closeAndDelete_no_relay_counterexample :
    dispatch { gerritChange := none, pullRequest := some prEx } =
      [.closePR "adg/upspin" 7, .deleteBranch "upspin" "Iabc123"] ∧
    (dispatch { gerritChange := none, pullRequest := some prEx }).all
      (fun op => !(isRelayOp op)) = true := by
  constructor <;> decide

/-- C5 (amended): for every record classified CloseAndDelete whose head
repository full name holds a `'/'`, the pass performs exactly the
pull-request close followed by the mirror branch deletion; no feedback
relay runs in this branch. -/
theorem closeAndDelete_trace (pr : PullRequest)
    (h : ('/' : Char) ∈ pr.head.repoName.data) :
    classify { gerritChange := none, pullRequest := some pr } = some .closeAndDelete ∧
    dispatch { gerritChange := none, pullRequest := some pr } =
      [.closePR pr.head.repoName pr.number,
       .deleteBranch
         (String.mk ((pr.head.repoName.data.dropWhile (fun ch => ch ≠ '/')).tail))
         pr.head.ref] ∧
    (dispatch { gerritChange := none, pullRequest := some pr }).all
      (fun op => !(isRelayOp op)) = true := by
  refine ⟨rfl, (dispatch_orphan_cases pr).2 h, ?_⟩
  rw [(dispatch_orphan_cases pr).2 h]
  rfl

/-- Witness for C5's amended theorem at a concrete orphaned pull request. -/
theorem closeAndDelete_trace_witness :
    classify { gerritChange := none, pullRequest := some prEx } = some .closeAndDelete ∧
    dispatch { gerritChange := none, pullRequest := some prEx } =
      [.closePR "adg/upspin" 7, .deleteBranch "upspin" "Iabc123"] ∧
    (dispatch { gerritChange := none, pullRequest := some prEx }).all
      (fun op => !(isRelayOp op)) = true :=
  closeAndDelete_trace prEx (by decide)

/-- A concrete human-authored pull request whose branch name merely starts
with `'I'`. -/
def prHuman : PullRequest :=
  { number := 5,
    head := { ref := "Improve-docs", sha := "cafe", repoName := "adg/upspin" },
    base := { ref := "master", sha := "", repoName := "adg/upspin" } }

/-- C9: the sentinel test is exactly "starts with the single character
`'I'`", so the human branch `Improve-docs` enters the join and, with no
matching Gerrit change, is classified CloseAndDelete and has its pull
request closed and its branch deleted. -/
theorem sentinel_prefix_overmatch :
    (∀ s : String, isGerritChange s = "I".data.isPrefixOf s.data) ∧
    isGerritChange "Improve-docs" = true ∧
    buildChanges [] [prHuman] "Improve-docs" =
      some { gerritChange := none, pullRequest := some prHuman } ∧
    classify { gerritChange := none, pullRequest := some prHuman } = some .closeAndDelete ∧
    dispatch { gerritChange := none, pullRequest := some prHuman } =
      [.closePR "adg/upspin" 5, .deleteBranch "upspin" "Improve-docs"] := by
  refine ⟨fun s => rfl, by decide, ?_, rfl, by decide⟩
  decide

/-! ## Commutativity of the identity matching -/

/-- One insertion step of the join, tagged by which fetch loop it came
from: `.inl` for a Gerrit change, `.inr` for a pull request. -/
def insertEntry (m : ChangeMap) : ChangeInfo ⊕ PullRequest → ChangeMap
  | .inl ci => insertGerrit m ci
  | .inr pr => insertPR m pr

/-- The join produced by performing the insertion steps in an arbitrary
interleaved order. -/
def buildInterleaved (entries : List (ChangeInfo ⊕ PullRequest)) : ChangeMap :=
  entries.foldl insertEntry (fun _ => none)

/-- C6 counterexample: inserting the matching pull request before its
Gerrit change loses the pull-request side (the Gerrit insertion installs a
fresh record), so the two interleavings of the same two entries disagree
— matching is not commutative. -/
theorem matching_not_commutative_counterexample :
    ([Sum.inr prEx, Sum.inl ciEx] : List (ChangeInfo ⊕ PullRequest)).Perm
      [Sum.inl ciEx, Sum.inr prEx] ∧
    buildInterleaved [Sum.inl ciEx, Sum.inr prEx] "Iabc123" =
      some { gerritChange := some ciEx, pullRequest := some prEx } ∧
    buildInterleaved [Sum.inr prEx, Sum.inl ciEx] "Iabc123" =
      some { gerritChange := some ciEx, pullRequest := none } ∧
    buildInterleaved [Sum.inr prEx, Sum.inl ciEx] "Iabc123" ≠
      buildInterleaved [Sum.inl ciEx, Sum.inr prEx] "Iabc123" := by
  refine ⟨List.Perm.swap _ _ _, by decide, by decide, by decide⟩

theorem lastCI_spec {cis : List ChangeInfo} {k : String} {ci : ChangeInfo}
    (h : lastCI cis k = some ci) : ci ∈ cis ∧ ci.changeID = k := by
  unfold lastCI at h
  have hp := List.find?_some h
  simp only [decide_eq_true_eq] at hp
  exact ⟨List.mem_reverse.mp (List.mem_of_find?_eq_some h), hp⟩

theorem lastPR_spec {prs : List PullRequest} {k : String} {pr : PullRequest}
    (h : lastPR prs k = some pr) :
    pr ∈ prs ∧ isGerritChange pr.head.ref = true ∧ pr.head.ref = k := by
  unfold lastPR at h
  have hp := List.find?_some h
  simp only [Bool.and_eq_true, decide_eq_true_eq] at hp
  exact ⟨List.mem_reverse.mp (List.mem_of_find?_eq_some h), hp.1, hp.2⟩

theorem lastCI_eq_of_nodup {cis : List ChangeInfo} {ci : ChangeInfo} {k : String}
    (hnd : (cis.map (fun x => x.changeID)).Nodup)
    (hmem : ci ∈ cis) (hid : ci.changeID = k) :
    lastCI cis k = some ci := by
  have hsome : (lastCI cis k).isSome :=
    (lastCI_isSome_iff cis k).mpr (hid ▸ List.mem_map_of_mem _ hmem)
  rcases Option.isSome_iff_exists.mp hsome with ⟨x, hx⟩
  obtain ⟨hxmem, hxk⟩ := lastCI_spec hx
  have := List.inj_on_of_nodup_map hnd hxmem hmem (by rw [hxk, hid])
  rw [hx, this]

theorem lastPR_eq_of_nodup {prs : List PullRequest} {pr : PullRequest} {k : String}
    (hnd : ((prs.filter (fun x => isGerritChange x.head.ref)).map
              (fun x => x.head.ref)).Nodup)
    (hmem : pr ∈ prs) (hg : isGerritChange pr.head.ref = true) (hid : pr.head.ref = k) :
    lastPR prs k = some pr := by
  have hsome : (lastPR prs k).isSome := by
    rw [lastPR_isSome_iff]
    exact hid ▸ List.mem_map_of_mem _ (List.mem_filter.mpr ⟨hmem, hg⟩)
  rcases Option.isSome_iff_exists.mp hsome with ⟨x, hx⟩
  obtain ⟨hxmem, hxg, hxk⟩ := lastPR_spec hx
  have hxf : x ∈ prs.filter (fun y => isGerritChange y.head.ref) :=
    List.mem_filter.mpr ⟨hxmem, hxg⟩
  have hprf : pr ∈ prs.filter (fun y => isGerritChange y.head.ref) :=
    List.mem_filter.mpr ⟨hmem, hg⟩
  have := List.inj_on_of_nodup_map hnd hxf hprf (by rw [hxk, hid])
  rw [hx, this]

theorem lastCI_perm {cis cis' : List ChangeInfo} (hperm : cis.Perm cis')
    (hnd : (cis.map (fun x => x.changeID)).Nodup) (k : String) :
    lastCI cis k = lastCI cis' k := by
  have hnd' : (cis'.map (fun x => x.changeID)).Nodup := (hperm.map _).nodup_iff.mp hnd
  cases hc : lastCI cis k with
  | some ci =>
    obtain ⟨hmem, hk⟩ := lastCI_spec hc
    exact (lastCI_eq_of_nodup hnd' (hperm.mem_iff.mp hmem) hk).symm
  | none =>
    cases hc' : lastCI cis' k with
    | none => rfl
    | some ci =>
      obtain ⟨hmem, hk⟩ := lastCI_spec hc'
      have := lastCI_eq_of_nodup hnd (hperm.mem_iff.mpr hmem) hk
      rw [this] at hc
      exact absurd hc (by simp)

theorem lastPR_perm {prs prs' : List PullRequest} (hperm : prs.Perm prs')
    (hnd : ((prs.filter (fun x => isGerritChange x.head.ref)).map
              (fun x => x.head.ref)).Nodup) (k : String) :
    lastPR prs k = lastPR prs' k := by
  have hnd' : ((prs'.filter (fun x => isGerritChange x.head.ref)).map
      (fun x => x.head.ref)).Nodup := ((hperm.filter _).map _).nodup_iff.mp hnd
  cases hc : lastPR prs k with
  | some pr =>
    obtain ⟨hmem, hg, hk⟩ := lastPR_spec hc
    exact (lastPR_eq_of_nodup hnd' (hperm.mem_iff.mp hmem) hg hk).symm
  | none =>
    cases hc' : lastPR prs' k with
    | none => rfl
    | some pr =>
      obtain ⟨hmem, hg, hk⟩ := lastPR_spec hc'
      have := lastPR_eq_of_nodup hnd (hperm.mem_iff.mpr hmem) hg hk
      rw [this] at hc
      exact absurd hc (by simp)

/-- C6 (amended): matching is commutative within each phase.  When all
Gerrit changes are inserted before all pull requests — as the pass always
does — permuting the changes among themselves and the pull requests among
themselves (change ids and filtered head refs being duplicate-free) yields
the same join; full interleaving does not commute, since inserting a
change after its matching pull request drops the pull-request side. -/
theorem matching_commutative_within_phases
    (cis cis' : List ChangeInfo) (prs prs' : List PullRequest)
    (hpc : cis.Perm cis') (hpp : prs.Perm prs')
    (hndc : (cis.map (fun x => x.changeID)).Nodup)
    (hndp : ((prs.filter (fun x => isGerritChange x.head.ref)).map
              (fun x => x.head.ref)).Nodup) (k : String) :
    buildChanges cis prs k = buildChanges cis' prs' k := by
  rw [buildChanges_eq, buildChanges_eq, lastCI_perm hpc hndc k, lastPR_perm hpp hndp k]

/-- Witness for C6's amended theorem at concrete permuted inputs. -/
theorem matching_commutative_within_phases_witness :
    buildChanges [ciEx] [prEx, prHuman] "Iabc123" =
      buildChanges [ciEx] [prHuman, prEx] "Iabc123" :=
  matching_commutative_within_phases [ciEx] [ciEx] [prEx, prHuman] [prHuman, prEx]
    (List.Perm.refl _) (List.Perm.swap _ _ _) (by decide) (by decide) "Iabc123"

/-! ## Convergence: what a second pass does

`passMirror` is the environment model of one *completed* pass's effect on
the mirror's open-pull-request listing, assuming every git and API call
succeeds (a failure or the SplitN panic aborts the pass, and then there is
no second run to speak of) and that fetching a change's ref yields its
current revision hash (the spec's `fetchRef` contract).  Per key, the pass
acts only on the record the join retained:

  * pull requests failing the sentinel test are untouched;
  * a sentinel pull request that is not the join winner for its own head
    ref is also untouched — the pass never looks at it;
  * a winner joined to a change keeps its head sha unless it lives in the
    change's mirror repository `owner/project` (the force-push goes to
    that repository's branch, so only there does the listed sha advance);
  * a change with no winner gets a fresh pull request in its repository at
    its current revision (`CreateAndOpen`);
  * a winner with no change is closed and leaves the listing. -/

/-- The joined pull request after the pass: the force-push moves the
branch in the change's repository `owner/project`, so the listed head sha
advances exactly when the pull request lives there. -/
def prForMatched (owner : String) (ci : ChangeInfo) (pr : PullRequest) : PullRequest :=
  if pr.head.repoName = owner ++ "/" ++ ci.project then
    { pr with head := { pr.head with sha := ci.currentRevision } }
  else pr

/-- The pull request `CreateAndOpen` produces for a change. -/
def prForNew (owner : String) (ci : ChangeInfo) : PullRequest :=
  { number := 0,
    head := { ref := ci.changeID, sha := ci.currentRevision,
              repoName := owner ++ "/" ++ ci.project },
    base := { ref := "master", sha := "", repoName := owner ++ "/" ++ ci.project } }

/-- The pull request a change ends the pass with. -/
def prFor (owner : String) (ci : ChangeInfo) (prs : List PullRequest) : PullRequest :=
  match lastPR prs ci.changeID with
  | some pr => prForMatched owner ci pr
  | none => prForNew owner ci

/-- The mirror's open-pull-request listing after one completed pass. -/
def passMirror (owner : String) (cis : List ChangeInfo) (prs : List PullRequest) :
    List PullRequest :=
  prs.filter (fun pr => !(isGerritChange pr.head.ref)) ++
    prs.filter (fun pr => isGerritChange pr.head.ref &&
      !(decide (lastPR prs pr.head.ref = some pr))) ++
    cis.map (fun ci => prFor owner ci prs)

theorem prForMatched_ref (owner : String) (ci : ChangeInfo) (pr : PullRequest) :
    (prForMatched owner ci pr).head.ref = pr.head.ref := by
  unfold prForMatched
  split <;> rfl

theorem prForMatched_sha (owner : String) (ci : ChangeInfo) (pr : PullRequest)
    (h : pr.head.repoName = owner ++ "/" ++ ci.project) :
    (prForMatched owner ci pr).head.sha = ci.currentRevision := by
  unfold prForMatched
  rw [if_pos h]

theorem prFor_ref (owner : String) (ci : ChangeInfo) (prs : List PullRequest) :
    (prFor owner ci prs).head.ref = ci.changeID := by
  unfold prFor
  cases h : lastPR prs ci.changeID with
  | some pr =>
    show (prForMatched owner ci pr).head.ref = ci.changeID
    rw [prForMatched_ref]
    exact (lastPR_spec h).2.2
  | none => rfl

theorem prFor_sha_of_repo (owner : String) (ci : ChangeInfo) (prs : List PullRequest)
    (h : ∀ pr, lastPR prs ci.changeID = some pr →
      pr.head.repoName = owner ++ "/" ++ ci.project) :
    (prFor owner ci prs).head.sha = ci.currentRevision := by
  unfold prFor
  cases hl : lastPR prs ci.changeID with
  | some pr =>
    show (prForMatched owner ci pr).head.sha = ci.currentRevision
    exact prForMatched_sha owner ci pr (h pr hl)
  | none => rfl

/-- Two open sentinel pull requests sharing the head ref `Ix` in two
different repositories of the owner. -/
def prDupA : PullRequest :=
  { number := 1, head := { ref := "Ix", sha := "a1", repoName := "adg/repoa" },
    base := { ref := "master", sha := "", repoName := "adg/repoa" } }

def prDupB : PullRequest :=
  { number := 2, head := { ref := "Ix", sha := "b2", repoName := "adg/repob" },
    base := { ref := "master", sha := "", repoName := "adg/repob" } }

/-- C3 counterexample: with no open change and two sentinel pull requests
sharing head ref `Ix` across repositories, the first pass joins (and
closes) only the last-listed one; the other is still listed afterwards,
so the second run joins it, classifies it CloseAndDelete, and performs a
pull-request-mutating close — not zero mutating operations. -/
theorem second_pass_mutates_counterexample :
    buildChanges [] [prDupA, prDupB] "Ix" =
      some { gerritChange := none, pullRequest := some prDupB } ∧
    passMirror "adg" [] [prDupA, prDupB] = [prDupA] ∧
    buildChanges [] (passMirror "adg" [] [prDupA, prDupB]) "Ix" =
      some { gerritChange := none, pullRequest := some prDupA } ∧
    classify { gerritChange := none, pullRequest := some prDupA } = some .closeAndDelete ∧
    (dispatch { gerritChange := none, pullRequest := some prDupA }).any
      (fun op => mutatingOp op) = true := by
  refine ⟨by decide, by decide, by decide, rfl, by decide⟩

/-- C3 (amended): with the source unchanged, a second pass over the
converged mirror classifies every joined record `NoOp` and performs no
branch-moving or pull-request-mutating operation, provided the spec's
invariants hold of the input: change ids carry the sentinel prefix and
are unique, each sentinel branch name has at most one open pull request
across the owner's repositories, and a pull request matching a change by
head ref lives in that change's mirror repository.  When a sentinel head
ref repeats across repositories the leftover pull request is closed on
the second run (see the counterexample). -/
theorem second_pass_noop (owner : String) (cis : List ChangeInfo) (prs : List PullRequest)
    (hids : ∀ ci ∈ cis, isGerritChange ci.changeID = true)
    (hnd : (cis.map (fun x => x.changeID)).Nodup)
    (hprnd : ((prs.filter (fun x => isGerritChange x.head.ref)).map
              (fun x => x.head.ref)).Nodup)
    (hrepo : ∀ pr ∈ prs, ∀ ci ∈ cis, isGerritChange pr.head.ref = true →
      pr.head.ref = ci.changeID → pr.head.repoName = owner ++ "/" ++ ci.project)
    (k : String) (c : Change)
    (hc : buildChanges cis (passMirror owner cis prs) k = some c) :
    classify c = some .noOp ∧
    (dispatch c).all (fun op => !(mutatingOp op)) = true := by
  rw [buildChanges_eq] at hc
  cases hpr : lastPR (passMirror owner cis prs) k with
  | none =>
    exfalso
    cases hci : lastCI cis k with
    | none =>
      rw [hpr, hci] at hc
      exact absurd hc (by simp)
    | some ci =>
      obtain ⟨hmem, hk⟩ := lastCI_spec hci
      have hmm : prFor owner ci prs ∈ passMirror owner cis prs :=
        List.mem_append_right _ (List.mem_map_of_mem _ hmem)
      have hsome : (lastPR (passMirror owner cis prs) k).isSome := by
        rw [lastPR_isSome_iff]
        refine List.mem_map.mpr ⟨prFor owner ci prs, List.mem_filter.mpr ⟨hmm, ?_⟩, ?_⟩
        · rw [prFor_ref]; exact hids ci hmem
        · rw [prFor_ref]; exact hk
      rw [hpr] at hsome
      exact absurd hsome (by simp)
  | some pr =>
    obtain ⟨hmem, hg, hk⟩ := lastPR_spec hpr
    unfold passMirror at hmem
    rcases List.mem_append.mp hmem with hmem | hmem
    swap
    · -- pr is the post-pass pull request of some change
      rcases List.mem_map.mp hmem with ⟨ci, hcimem, hpreq⟩
      have hidk : ci.changeID = k := by
        rw [← prFor_ref owner ci prs, hpreq]; exact hk
      have hci : lastCI cis k = some ci := lastCI_eq_of_nodup hnd hcimem hidk
      rw [hpr, hci] at hc
      simp only [Option.some.injEq] at hc
      subst hc
      have hsha : pr.head.sha = ci.currentRevision := by
        rw [← hpreq]
        refine prFor_sha_of_repo owner ci prs ?_
        intro pr' hl
        obtain ⟨hmem', hg', hk'⟩ := lastPR_spec hl
        exact hrepo pr' hmem' ci hcimem hg' hk'
      constructor
      · simp [classify, hsha]
      · simp [dispatch, hsha, mutatingOp]
    rcases List.mem_append.mp hmem with hmem | hmem
    · -- pr survived the pass as a non-sentinel pull request: contradiction
      exfalso
      have hneg := (List.mem_filter.mp hmem).2
      rw [hg] at hneg
      exact absurd hneg (by simp)
    · -- pr survived the pass as a non-winner sentinel pull request:
      -- impossible when filtered head refs are duplicate-free
      exfalso
      obtain ⟨hmem', hpred⟩ := List.mem_filter.mp hmem
      simp only [Bool.and_eq_true, Bool.not_eq_true', decide_eq_false_iff_not] at hpred
      exact hpred.2 (lastPR_eq_of_nodup hprnd hmem' hpred.1 rfl)

/-- The pull request created for `ciEx` by a first pass over an empty
mirror. -/
def prCreated : PullRequest := prFor "adg" ciEx []

/-- Witness for C3's amended theorem at a concrete converged state. -/
theorem second_pass_noop_witness :
    classify { gerritChange := some ciEx, pullRequest := some prCreated } = some .noOp ∧
    (dispatch { gerritChange := some ciEx, pullRequest := some prCreated }).all
      (fun op => !(mutatingOp op)) = true :=
  second_pass_noop "adg" [ciEx] [] (by decide) (by decide) (by decide) (by decide)
    "Iabc123" { gerritChange := some ciEx, pullRequest := some prCreated } (by decide)

/-! ## The feedback relay (`syncComments`) -/

/-- A GitHub commit status event. -/
structure GitHubStatus where
  context : String
  state : String
  description : String
  target : String
  deriving DecidableEq, Repr

/-- `gerrit.ReviewInput`: the comment posted back to Gerrit — a message
and an optional label map (`nil` becomes `[]`). -/
structure ReviewInput where
  message : String
  labels : List (String × Int)
  deriving DecidableEq, Repr

/-- `strings.Contains(hay, needle)`. -/
def containsSub (hay needle : List Char) : Bool :=
  hay.tails.any (fun t => needle.isPrefixOf t)

/-- `fmt.Sprintf("%v: %v", stat.Description, stat.Target)`. -/
def statusMsg (st : GitHubStatus) : String :=
  st.description ++ ": " ++ st.target

/-- The dedup loop of `syncComments`: some existing comment text contains
the candidate message as a substring. -/
def messageFound (messages : List String) (msg : String) : Bool :=
  messages.any (fun m => containsSub m.data msg.data)

/-- One iteration of the status loop in `syncComments`: skip foreign
contexts and non-terminal states, skip already-relayed messages, otherwise
build the review to post (with a `Code-Review: -1` label on failure). -/
def relayStatus (messages : List String) (st : GitHubStatus) : Option ReviewInput :=
  if st.context = "continuous-integration/travis-ci/pr" then
    if st.state = "success" ∨ st.state = "failure" then
      if messageFound messages (statusMsg st) then none
      else
        some { message := statusMsg st,
               labels := if st.state = "failure" then [("Code-Review", -1)] else [] }
    else none
  else none

/-- `syncComments` as a pure function: the reviews posted for the fetched
status list, given the change's existing comment texts. -/
def syncComments (statuses : List GitHubStatus) (messages : List String) :
    List ReviewInput :=
  statuses.filterMap (relayStatus messages)

theorem containsSub_self (l : List Char) : containsSub l l = true := by
  unfold containsSub
  rw [List.any_eq_true]
  exact ⟨l, (List.mem_tails l l).mpr List.suffix_rfl, List.isPrefixOf_iff_prefix.mpr List.prefix_rfl⟩

theorem relay_no_post_if_found (statuses : List GitHubStatus) (messages : List String)
    (r : ReviewInput) (hr : r ∈ syncComments statuses messages) :
    messageFound messages r.message = false := by
  unfold syncComments at hr
  rw [List.mem_filterMap] at hr
  obtain ⟨st, hst, hrel⟩ := hr
  unfold relayStatus at hrel
  split at hrel
  · split at hrel
    · split at hrel
      · exact absurd hrel (by simp)
      · simp only [Option.some.injEq] at hrel
        subst hrel
        rename_i hnf
        exact Bool.not_eq_true _ ▸ hnf
    · exact absurd hrel (by simp)
  · exact absurd hrel (by simp)

theorem relay_posts_if_not_found (statuses : List GitHubStatus) (messages : List String)
    (st : GitHubStatus) (hst : st ∈ statuses)
    (hc : st.context = "continuous-integration/travis-ci/pr")
    (hs : st.state = "success" ∨ st.state = "failure")
    (hf : messageFound messages (statusMsg st) = false) :
    statusMsg st ∈ (syncComments statuses messages).map (fun r => r.message) := by
  rw [List.mem_map]
  refine ⟨{ message := statusMsg st,
            labels := if st.state = "failure" then [("Code-Review", -1)] else [] }, ?_, rfl⟩
  unfold syncComments
  rw [List.mem_filterMap]
  refine ⟨st, hst, ?_⟩
  unfold relayStatus
  rw [if_pos hc, if_pos hs, hf]
  simp

/-- C4 (amended): a candidate message from a retained status event is
posted exactly when no existing comment contains it as a substring, and a
second relay run over the first run's output posts nothing.  Within a
single run the comment list is not refreshed, so two retained events
carrying the same message both post it (see the counterexample); "each
distinct message exactly once" holds only when retained events carry
distinct messages. -/
theorem relay_dedup_amended (statuses : List GitHubStatus) (messages : List String) :
    syncComments statuses
        (messages ++ (syncComments statuses messages).map (fun r => r.message)) = []
    ∧ (∀ st ∈ statuses,
        st.context = "continuous-integration/travis-ci/pr" →
        st.state = "success" ∨ st.state = "failure" →
        (messageFound messages (statusMsg st) = false ↔
          statusMsg st ∈ (syncComments statuses messages).map (fun r => r.message))) := by
  constructor
  · rw [syncComments, List.filterMap_eq_nil_iff]
    intro st hst
    unfold relayStatus
    by_cases hc : st.context = "continuous-integration/travis-ci/pr"
    · rw [if_pos hc]
      by_cases hs : st.state = "success" ∨ st.state = "failure"
      · rw [if_pos hs]
        have hfound : messageFound
            (messages ++ (syncComments statuses messages).map (fun r => r.message))
            (statusMsg st) = true := by
          unfold messageFound
          rw [List.any_append, Bool.or_eq_true]
          by_cases hf : messageFound messages (statusMsg st)
          · exact Or.inl hf
          · refine Or.inr ?_
            rw [List.any_eq_true]
            refine ⟨statusMsg st, ?_, containsSub_self _⟩
            exact relay_posts_if_not_found statuses messages st hst hc hs
              (Bool.not_eq_true _ ▸ hf)
        rw [hfound]
        simp
      · rw [if_neg hs]
    · rw [if_neg hc]
  · intro st hst hc hs
    constructor
    · intro hf
      exact relay_posts_if_not_found statuses messages st hst hc hs hf
    · intro hmem
      rw [List.mem_map] at hmem
      obtain ⟨r, hr, hmsg⟩ := hmem
      rw [← hmsg]
      exact relay_no_post_if_found statuses messages r hr

/-- A terminal success status and a terminal failure status that produce
the same candidate message. -/
def stSucc : GitHubStatus :=
  { context := "continuous-integration/travis-ci/pr", state := "success",
    description := "d", target := "t" }

def stFailDup : GitHubStatus :=
  { context := "continuous-integration/travis-ci/pr", state := "failure",
    description := "d", target := "t" }

/-- C4 counterexample: two distinct retained events share the message
`"d: t"`; the first run posts it twice (the comment list is not refreshed
within a pass), so across the two runs the distinct message is posted
twice, not exactly once. -/
theorem relay_dedup_counterexample :
    (syncComments [stSucc, stFailDup] []).map (fun r => r.message) = ["d: t", "d: t"] ∧
    syncComments [stSucc, stFailDup]
      ((syncComments [stSucc, stFailDup] []).map (fun r => r.message)) = [] := by
  constructor
  · decide
  · decide

/-- Witness for C4's amended theorem: the failure status's message is
posted when no comment contains it. -/
theorem relay_dedup_amended_witness :
    statusMsg stFailDup ∈ (syncComments [stFailDup] []).map (fun r => r.message) :=
  ((relay_dedup_amended [stFailDup] []).2 stFailDup (List.mem_singleton.mpr rfl)
    rfl (Or.inr rfl)).mp (by decide)

/-- C7: a relayed failure status carries the `Code-Review: -1` ("do not
merge") label; a relayed success status carries no label. -/
theorem relay_label_rule (messages : List String) (st : GitHubStatus) (r : ReviewInput)
    (h : relayStatus messages st = some r) :
    (st.state = "failure" → r.labels = [("Code-Review", -1)]) ∧
    (st.state = "success" → r.labels = []) := by
  unfold relayStatus at h
  split at h
  · split at h
    · split at h
      · exact absurd h (by simp)
      · simp only [Option.some.injEq] at h
        subst h
        constructor
        · intro hf; simp [hf]
        · intro hs
          have hne : ¬ (st.state = "failure") := by rw [hs]; simp
          simp [hne]
    · exact absurd h (by simp)
  · exact absurd h (by simp)

/-- Witness for C7 at the concrete failure status. -/
theorem relay_label_rule_witness :
    ({ message := "d: t", labels := [("Code-Review", -1)] } : ReviewInput).labels =
      [("Code-Review", -1)] :=
  (relay_label_rule [] stFailDup
    { message := "d: t", labels := [("Code-Review", -1)] } (by decide)).1 rfl

/-! ## Branch synchronization (`syncBranch`) and the git subprocess -/

/-- The environment of git subprocess runs: for a working directory and an
argument list, `none` means the command exits successfully, `some out`
that it fails with combined output `out`. -/
abbrev GitEnv := String → List String → Option String

/-- The error `git(dir, args...)` returns on failure: the Go code wraps
the command's arguments and its captured combined output into the
`fmt.Errorf` it propagates. -/
structure GitError where
  args : List String
  output : String
  deriving DecidableEq, Repr

/-- `git(dir, args...)`. -/
def git (env : GitEnv) (dir : String) (args : List String) : Except GitError Unit :=
  match env dir args with
  | none => .ok ()
  | some out => .error { args := args, output := out }

/-- The fetch / hard-reset / force-push tail of `syncBranch`, after the
change branch has been checked out. -/
def restSync (env : GitEnv) (dir src ref dest id : String) : Except GitError Unit :=
  match git env dir ["fetch", src, ref] with
  | .error e => .error e
  | .ok _ =>
    match git env dir ["reset", "--hard", "FETCH_HEAD"] with
    | .error e => .error e
    | .ok _ => git env dir ["push", "-f", dest, id]

/-- `syncBranch`, with the clone step's outcome abstracted as an input.
`checkout id` failing is treated as "branch does not exist": the code
falls back to `checkout -b id`, and only when that also fails does it
return — and then it returns the first error (`err`, the failed checkout,
carrying that command's captured output). -/
def syncBranch (env : GitEnv) (cloneRes : Except GitError Unit)
    (gerritURL owner authToken dir : String) (c : ChangeInfo) : Except GitError Unit :=
  match cloneRes with
  | .error e => .error e
  | .ok _ =>
    match git env dir ["checkout", c.changeID] with
    | .ok _ =>
        restSync env dir (gerritURL ++ "/" ++ c.project) c.refOf
          ("https://" ++ authToken ++ "@github.com/" ++ owner ++ "/" ++ c.project) c.changeID
    | .error err =>
      match git env dir ["checkout", "-b", c.changeID] with
      | .ok _ =>
          restSync env dir (gerritURL ++ "/" ++ c.project) c.refOf
            ("https://" ++ authToken ++ "@github.com/" ++ owner ++ "/" ++ c.project) c.changeID
      | .error _ => .error err

theorem restSync_error_args (env : GitEnv) (dir src ref dest id : String) (e : GitError)
    (h : restSync env dir src ref dest id = .error e) :
    e.args = ["fetch", src, ref] ∨ e.args = ["reset", "--hard", "FETCH_HEAD"] ∨
      e.args = ["push", "-f", dest, id] := by
  unfold restSync git at h
  cases h1 : env dir ["fetch", src, ref] <;> rw [h1] at h
  · cases h2 : env dir ["reset", "--hard", "FETCH_HEAD"] <;> rw [h2] at h
    · cases h3 : env dir ["push", "-f", dest, id] <;> rw [h3] at h
      · exact absurd h (by simp)
      · simp only [Except.error.injEq] at h
        subst h
        exact Or.inr (Or.inr rfl)
    · simp only [Except.error.injEq] at h
      subst h
      exact Or.inr (Or.inl rfl)
  · simp only [Except.error.injEq] at h
    subst h
    exact Or.inl rfl

/-- C8: a failed `checkout` of the change branch is not fatal — it
triggers the `checkout -b` fallback, and the pipeline proceeds; only when
the fallback also fails does `syncBranch` return an error from the
checkout step, and that error is the captured-output-carrying error of the
failed `checkout`; no later pipeline step can produce an error bearing the
checkout arguments. -/
theorem syncBranch_checkout_fallback (env : GitEnv)
    (gerritURL owner authToken dir : String) (c : ChangeInfo) (out : String)
    (hfail : env dir ["checkout", c.changeID] = some out) :
    (env dir ["checkout", "-b", c.changeID] = none →
      syncBranch env (.ok ()) gerritURL owner authToken dir c =
        restSync env dir (gerritURL ++ "/" ++ c.project) c.refOf
          ("https://" ++ authToken ++ "@github.com/" ++ owner ++ "/" ++ c.project) c.changeID)
    ∧ (∀ out2, env dir ["checkout", "-b", c.changeID] = some out2 →
        syncBranch env (.ok ()) gerritURL owner authToken dir c =
          .error { args := ["checkout", c.changeID], output := out })
    ∧ (∀ e : GitError,
        syncBranch env (.ok ()) gerritURL owner authToken dir c = .error e →
        e.args = ["checkout", c.changeID] →
        ∃ out2, env dir ["checkout", "-b", c.changeID] = some out2 ∧ e.output = out) := by
  have hgit1 : git env dir ["checkout", c.changeID] =
      .error { args := ["checkout", c.changeID], output := out } := by
    unfold git; rw [hfail]
  refine ⟨?_, ?_, ?_⟩
  · intro hok
    have hgit2 : git env dir ["checkout", "-b", c.changeID] = .ok () := by
      unfold git; rw [hok]
    unfold syncBranch
    rw [hgit1, hgit2]
  · intro out2 hfail2
    have hgit2 : git env dir ["checkout", "-b", c.changeID] =
        .error { args := ["checkout", "-b", c.changeID], output := out2 } := by
      unfold git; rw [hfail2]
    unfold syncBranch
    rw [hgit1, hgit2]
  · intro e he hargs
    cases hfb : env dir ["checkout", "-b", c.changeID] with
    | none =>
      exfalso
      have hgit2 : git env dir ["checkout", "-b", c.changeID] = .ok () := by
        unfold git; rw [hfb]
      unfold syncBranch at he
      rw [hgit1, hgit2] at he
      rcases restSync_error_args _ _ _ _ _ _ _ he with h | h | h <;>
        rw [hargs] at h <;> exact absurd h (by simp)
    | some out2 =>
      refine ⟨out2, rfl, ?_⟩
      have hgit2 : git env dir ["checkout", "-b", c.changeID] =
          .error { args := ["checkout", "-b", c.changeID], output := out2 } := by
        unfold git; rw [hfb]
      unfold syncBranch at he
      rw [hgit1, hgit2] at he
      simp only [Except.error.injEq] at he
      rw [← he]

/-- A git environment where both `checkout Iabc123` and
`checkout -b Iabc123` fail. -/
def envBothFail : GitEnv := fun _ args =>
  if args = ["checkout", "Iabc123"] then some "pathspec error"
  else if args = ["checkout", "-b", "Iabc123"] then some "branch exists"
  else none

/-- Witness for C8: with both checkouts failing, `syncBranch` returns the
first checkout's error with its captured output. -/
theorem syncBranch_checkout_fallback_witness :
    syncBranch envBothFail (.ok ()) "https://upspin.googlesource.com" "adg" "tok"
        "/tmp/upspin" ciEx =
      .error { args := ["checkout", "Iabc123"], output := "pathspec error" } :=
  (syncBranch_checkout_fallback envBothFail "https://upspin.googlesource.com" "adg" "tok"
    "/tmp/upspin" ciEx "pathspec error" (by decide)).2.1 "branch exists" (by decide)

end Gitsync
